import Mathlib

/-!
# Verification of the PaperLens pipeline (`src/Sources/Pipeline.py`)

Shallow embedding of `Pipeline.Run`'s pure core:

* raw paper records are Python dicts, modelled as insertion-ordered
  association lists `Record` over `PyVal` (Python `None`, strings, numbers);
* the candidate filter (step 3 of `Run`), including the
  `rawPaper.get(k, "") or ""` handling of absent / `None` fields;
* the similarity ranker (step 4 of `Run`): dot-product scores,
  `np.argsort(...)[::-1][:TOP_K]`, and the per-record construction of a
  recommendation dict;
* the profile vectorizer (step 2 of `Run`): mean of embedded vectors divided
  by its Euclidean norm plus `1e-9`.

Python floats are modelled by exact rationals `ℚ` (every IEEE float is a
rational); `np.linalg.norm` returns an irrational square root in general, so
the norm value is passed explicitly, characterised by `IsEuclidNorm`
(nonnegative, squares to the sum of squares).
-/

namespace PaperLens

/-- A Python value as it occurs in paper records: `None`, a string, or a
number (floats modelled as exact rationals). -/
inductive PyVal where
  | none
  | str (s : String)
  | rat (q : ℚ)
deriving DecidableEq

/-- A Python dict with string keys, as an insertion-ordered association
list (first binding of a key is its binding; well-formed dicts bind each
key once). -/
abbrev Record := List (String × PyVal)

/-- `d.get(k)` / `d[k]`: first binding of key `k`, if any. -/
def pyGet : Record → String → Option PyVal
  | [], _ => Option.none
  | (k', v) :: rest, k => if k' = k then some v else pyGet rest k

/-- `d.get(k, dflt)`. -/
def pyGetD (r : Record) (k : String) (dflt : PyVal) : PyVal :=
  (pyGet r k).getD dflt

/-- `d[k] = v`: replace the value in place when the key is bound, else
append a new binding (Python dicts keep insertion order and update values
in place). -/
def pySet : Record → String → PyVal → Record
  | [], k, v => [(k, v)]
  | (k', v') :: rest, k, v =>
      if k' = k then (k', v) :: rest else (k', v') :: pySet rest k v

/-- `d.setdefault(k, v)`: insert `v` under `k` only when `k` is unbound. -/
def pySetdefault (r : Record) (k : String) (v : PyVal) : Record :=
  match pyGet r k with
  | some _ => r
  | Option.none => r ++ [(k, v)]

/-! ## Candidate filter (Pipeline.Run, step 3)

```python
title        = rawPaper.get("title", "") or ""
abstractNote = rawPaper.get("abstract", "") or ""
if title.strip() == "" and abstractNote.strip() == "":
    continue
totalPapers += 1
paperCandidates.append(rawPaper)
paperTexts.append(f"## 论文 {totalPapers}\n- 标题：{title}\n- 摘要：{abstractNote}")
```
-/

/-- Models `x or ""` applied to the result of `d.get(k, "")` under the
fetcher interface contract that `title` / `abstract` are strings or `None`:
falsy values (`None`, `""`) are replaced by `""`, which is the identity on
strings. -/
def orEmpty : PyVal → String
  | PyVal.str s => s
  | _ => ""

/-- Python `str.strip()`: remove leading and trailing whitespace
(structurally recursive model of `String.trim`). -/
def pyStrip (s : String) : String :=
  String.mk
    (((s.data.dropWhile Char.isWhitespace).reverse.dropWhile Char.isWhitespace).reverse)

/-- The `title` string the filter works with: `rawPaper.get("title", "") or ""`. -/
def titleStr (r : Record) : String := orEmpty (pyGetD r "title" (PyVal.str ""))

/-- The `abstract` string the filter works with:
`rawPaper.get("abstract", "") or ""`. -/
def abstractStr (r : Record) : String := orEmpty (pyGetD r "abstract" (PyVal.str ""))

/-- The formatted text block
`f"## 论文 {n}\n- 标题：{title}\n- 摘要：{abstract}"`. -/
def paperText (n : ℕ) (title abs : String) : String :=
  "## 论文 " ++ toString n ++ "\n- 标题：" ++ title ++ "\n- 摘要：" ++ abs

/-- The record-keeping condition of the filter loop (negation of the
`continue` guard `title.strip() == "" and abstractNote.strip() == ""`). -/
def keepB (r : Record) : Bool :=
  !(pyStrip (titleStr r) == "" && pyStrip (abstractStr r) == "")

/-- The filter loop: walks `rawDataset` with the running counter
`totalPapers`, producing `(paperCandidates, paperTexts)`. -/
def candidateFilter : List Record → ℕ → List Record × List String
  | [], _ => ([], [])
  | r :: rest, total =>
      if pyStrip (titleStr r) = "" ∧ pyStrip (abstractStr r) = "" then
        candidateFilter rest total
      else
        let res := candidateFilter rest (total + 1)
        (r :: res.1, paperText (total + 1) (titleStr r) (abstractStr r) :: res.2)

/-! ## Similarity ranker (Pipeline.Run, step 4)

```python
paperSimilarity = (embeddings @ personasVecs.T).ravel() if embeddings.size else np.zeros((0,), dtype=np.float32)
rankOrder = np.argsort(paperSimilarity)[::-1][:self.config.TOP_K]
for index in rankOrder:
    paper = {**paperCandidates[index]}
    paper["Similarity"] = float(paperSimilarity[index])
    paper.setdefault("abstract", paper.get("abstract", ""))
    paperRecommendations.append(paper)
```
-/

/-- Dot product of two vectors (one row of `embeddings @ personasVecs.T`). -/
def dot (a b : List ℚ) : ℚ := (List.zipWith (· * ·) a b).sum

/-- The similarity scores: dot product of each embedded candidate with the
persona vector, short-circuited to the empty vector when there are no
embeddings (`if embeddings.size`). -/
def paperSimilarity (embeddings : List (List ℚ)) (persona : List ℚ) : List ℚ :=
  if embeddings.isEmpty then [] else embeddings.map (fun e => dot e persona)

/-- `paperSimilarity[i]` (indices produced by `argsort` are in range). -/
def simsAt (sims : List ℚ) (i : ℕ) : ℚ := sims.getD i 0

/-- The ascending comparison used to model `np.argsort`: order indices by
score, ties by index (the stable argsort; this relation is a linear order,
so every correct ascending sort produces the same index list). -/
def argLe (sims : List ℚ) (i j : ℕ) : Prop :=
  simsAt sims i < simsAt sims j ∨ (simsAt sims i = simsAt sims j ∧ i ≤ j)

instance (sims : List ℚ) : DecidableRel (argLe sims) := fun i j => by
  unfold argLe; infer_instance

/-- `np.argsort(paperSimilarity)[::-1][:K]`: ascending stable argsort of the
score vector, reversed, truncated to the first `K` indices. -/
def rankOrder (sims : List ℚ) (K : ℕ) : List ℕ :=
  ((List.insertionSort (argLe sims) (List.range sims.length)).reverse).take K

/-- The per-index body of the recommendation loop:
`{**cand}` (copy), `paper["Similarity"] = float(sim)`,
`paper.setdefault("abstract", paper.get("abstract", ""))`. -/
def buildRecommendation (cand : Record) (sim : ℚ) : Record :=
  let paper := pySet cand "Similarity" (PyVal.rat sim)
  pySetdefault paper "abstract" (pyGetD paper "abstract" (PyVal.str ""))

/-- `paperRecommendations`: one recommendation per ranked index. -/
def rankedRecommendations (cands : List Record) (sims : List ℚ) (K : ℕ) :
    List Record :=
  (rankOrder sims K).map
    (fun index => buildRecommendation (cands.getD index []) (simsAt sims index))

/-- The `Similarity` score carried by a recommendation record. -/
def simScore (r : Record) : ℚ :=
  match pyGet r "Similarity" with
  | some (PyVal.rat q) => q
  | _ => 0

/-! ## Profile vectorizer (Pipeline.Run, step 2)

```python
embeddings = self.embedder.Encode(personasTexts)
if embeddings.size == 0:
    personasVecs = np.zeros((1, self.embedder.dimensions), dtype=np.float32)
else:
    personasVecs = embeddings.mean(axis=0, keepdims=True)
    personasVecs /= (np.linalg.norm(personasVecs) + 1e-9)
```
-/

/-- Element-wise sum of a batch of equal-length vectors. -/
def sumVecs : List (List ℚ) → List ℚ
  | [] => []
  | [v] => v
  | v :: rest => List.zipWith (· + ·) v (sumVecs rest)

/-- `embeddings.mean(axis=0)`. -/
def meanVec (embs : List (List ℚ)) : List ℚ :=
  (sumVecs embs).map (fun x => x / ((embs.length : ℚ)))

/-- Sum of squares of the entries; the Euclidean norm is its square root. -/
def sumSq (v : List ℚ) : ℚ := (v.map (fun x => x ^ 2)).sum

/-- `n = np.linalg.norm(v)`: the Euclidean norm of `v` is the unique
nonnegative number squaring to the sum of squares.  (The square root is
irrational in general, so norms enter the rational model as values
characterised by this predicate.) -/
def IsEuclidNorm (v : List ℚ) (n : ℚ) : Prop := 0 ≤ n ∧ n ^ 2 = sumSq v

/-- `personasVecs`: zero vector of the embedder's dimensionality when the
batch is empty, else the mean divided by its Euclidean norm (passed as `n`)
plus `1e-9`. -/
def personaVecs (embs : List (List ℚ)) (dims : ℕ) (n : ℚ) : List ℚ :=
  if embs.isEmpty then List.replicate dims 0
  else (meanVec embs).map (fun x => x / (n + 1e-9))

/-! ## Aggregator -/

/-- Modelled from the spec: `Aggregator.fetch_all`
(`src/Sources/FetchPaper/Aggregator.py` is absent from the source tree; only
its import and call sites appear in `Pipeline.py`).  Per §4.2 each fetcher
independently returns its records for the date range and the aggregator
concatenates all fetcher outputs into one sequence, preserving per-source
order and the configured fetcher order, with no cross-source deduplication;
modelled as the usual accumulate-and-extend loop. -/
def fetch_all (fetchers : List (String → String → List Record))
    (day nextDay : String) : List Record :=
  fetchers.foldl (fun acc f => acc ++ f day nextDay) []

/-! ## Basic lemmas: dict operations -/

theorem pyGet_pySet_self (r : Record) (k : String) (v : PyVal) :
    pyGet (pySet r k v) k = some v := by
  induction r with
  | nil => simp [pySet, pyGet]
  | cons kv rest ih =>
      rcases kv with ⟨k', v'⟩
      by_cases h : k' = k
      · simp [pySet, h, pyGet]
      · simp [pySet, h, pyGet, ih]

theorem pyGet_pySet_ne (r : Record) (k k' : String) (v : PyVal) (h : k ≠ k') :
    pyGet (pySet r k' v) k = pyGet r k := by
  induction r with
  | nil => simp [pySet, pyGet, Ne.symm h]
  | cons kv rest ih =>
      rcases kv with ⟨k₀, v₀⟩
      by_cases h0 : k₀ = k'
      · subst h0
        simp [pySet, pyGet, Ne.symm h]
      · simp [pySet, pyGet, h0, ih]

theorem pyGet_append_some (r l : Record) (k : String) (v : PyVal)
    (h : pyGet r k = some v) : pyGet (r ++ l) k = some v := by
  induction r with
  | nil => simp [pyGet] at h
  | cons kv rest ih =>
      rcases kv with ⟨k₀, v₀⟩
      by_cases h0 : k₀ = k <;> simp_all [pyGet]

theorem pyGet_append_none (r l : Record) (k : String)
    (h : pyGet r k = Option.none) : pyGet (r ++ l) k = pyGet l k := by
  induction r with
  | nil => simp [pyGet]
  | cons kv rest ih =>
      rcases kv with ⟨k₀, v₀⟩
      by_cases h0 : k₀ = k <;> simp_all [pyGet]

theorem pyGet_pySetdefault_self (r : Record) (k : String) (v : PyVal) :
    pyGet (pySetdefault r k v) k = some ((pyGet r k).getD v) := by
  unfold pySetdefault
  cases h : pyGet r k with
  | none =>
      rw [pyGet_append_none r _ k h]
      simp [pyGet]
  | some w => simp [pyGet_append_some, h]

theorem pyGet_pySetdefault_ne (r : Record) (k k' : String) (v : PyVal)
    (h : k ≠ k') : pyGet (pySetdefault r k' v) k = pyGet r k := by
  unfold pySetdefault
  cases h' : pyGet r k' with
  | none =>
      cases hk : pyGet r k with
      | none =>
          rw [pyGet_append_none r _ k hk]
          simp [pyGet, Ne.symm h]
      | some w =>
          rw [pyGet_append_some r _ k w hk]
  | some w => rfl

/-! ## Basic lemmas: the recommendation record -/

theorem pyGet_build_similarity (c : Record) (s : ℚ) :
    pyGet (buildRecommendation c s) "Similarity" = some (PyVal.rat s) := by
  unfold buildRecommendation
  rw [pyGet_pySetdefault_ne _ _ _ _ (by decide)]
  exact pyGet_pySet_self c _ _

theorem simScore_build (c : Record) (s : ℚ) :
    simScore (buildRecommendation c s) = s := by
  simp [simScore, pyGet_build_similarity]

theorem pyGet_build_abstract (c : Record) (s : ℚ) :
    pyGet (buildRecommendation c s) "abstract"
      = some ((pyGet c "abstract").getD (PyVal.str "")) := by
  unfold buildRecommendation
  rw [pyGet_pySetdefault_self]
  rw [pyGetD, pyGet_pySet_ne _ _ _ _ (by decide)]
  cases h : pyGet c "abstract" <;> simp [h]

theorem pyGet_build_other (c : Record) (s : ℚ) (k : String)
    (h1 : k ≠ "Similarity") (h2 : k ≠ "abstract") :
    pyGet (buildRecommendation c s) k = pyGet c k := by
  unfold buildRecommendation
  rw [pyGet_pySetdefault_ne _ _ _ _ h2, pyGet_pySet_ne _ _ _ _ h1]

/-! ## Basic lemmas: the argsort model -/

instance instTotalArgLe (sims : List ℚ) : IsTotal ℕ (argLe sims) := by
  constructor
  intro i j
  rcases lt_trichotomy (simsAt sims i) (simsAt sims j) with h | h | h
  · exact Or.inl (Or.inl h)
  · rcases Nat.le_total i j with hij | hij
    · exact Or.inl (Or.inr ⟨h, hij⟩)
    · exact Or.inr (Or.inr ⟨h.symm, hij⟩)
  · exact Or.inr (Or.inl h)

instance instTransArgLe (sims : List ℚ) : IsTrans ℕ (argLe sims) := by
  constructor
  intro a b c hab hbc
  rcases hab with h1 | ⟨h1, h1'⟩ <;> rcases hbc with h2 | ⟨h2, h2'⟩
  · exact Or.inl (h1.trans h2)
  · exact Or.inl (h2 ▸ h1)
  · exact Or.inl (h1 ▸ h2)
  · exact Or.inr ⟨h1.trans h2, h1'.trans h2'⟩

theorem rankOrder_pairwise (sims : List ℚ) (K : ℕ) :
    (rankOrder sims K).Pairwise (fun a b => argLe sims b a) := by
  unfold rankOrder
  apply List.Pairwise.sublist (List.take_sublist _ _)
  rw [List.pairwise_reverse]
  exact List.sorted_insertionSort _ _

theorem rankOrder_nodup (sims : List ℚ) (K : ℕ) : (rankOrder sims K).Nodup := by
  unfold rankOrder
  apply List.Nodup.sublist (List.take_sublist _ _)
  rw [List.nodup_reverse]
  exact (List.perm_insertionSort _ _).symm.nodup (List.nodup_range _)

theorem rankOrder_length (sims : List ℚ) (K : ℕ) :
    (rankOrder sims K).length = min K sims.length := by
  simp [rankOrder, List.length_insertionSort]

theorem rankOrder_complete (sims : List ℚ) (K : ℕ) (hK : sims.length ≤ K)
    (j : ℕ) (hj : j < sims.length) : j ∈ rankOrder sims K := by
  unfold rankOrder
  rw [List.take_of_length_le (by simpa [List.length_insertionSort] using hK)]
  rw [List.mem_reverse, List.mem_insertionSort, List.mem_range]
  exact hj

theorem paperSimilarity_length (embs : List (List ℚ)) (persona : List ℚ) :
    (paperSimilarity embs persona).length = embs.length := by
  unfold paperSimilarity
  split
  · next h => simp [List.isEmpty_iff.mp h]
  · simp

/-! ## Claim theorems: similarity ranker -/

/-- C1: for every candidate set (one embedding row per candidate) and every
configured `K`, the ranker's output is sorted by the `Similarity` field in
descending order and has length `min K candidateCount`; when `K` is at least
the candidate count, every candidate index appears in the ranking. -/
theorem similarityRanker_topK (cands : List Record) (embs : List (List ℚ))
    (persona : List ℚ) (K : ℕ) (hlen : embs.length = cands.length) :
    (rankedRecommendations cands (paperSimilarity embs persona) K).length
        = min K cands.length ∧
    (rankedRecommendations cands (paperSimilarity embs persona) K).Pairwise
        (fun a b => simScore b ≤ simScore a) ∧
    (cands.length ≤ K → ∀ j, j < cands.length →
        j ∈ rankOrder (paperSimilarity embs persona) K) := by
  have hsl : (paperSimilarity embs persona).length = cands.length := by
    rw [paperSimilarity_length, hlen]
  refine ⟨?_, ?_, ?_⟩
  · simp [rankedRecommendations, rankOrder_length, hsl]
  · refine (rankOrder_pairwise _ K).map _ ?_
    intro a b hab
    have hle : simsAt (paperSimilarity embs persona) b
        ≤ simsAt (paperSimilarity embs persona) a := by
      rcases hab with h | ⟨h, _⟩
      · exact le_of_lt h
      · exact le_of_eq h
    simpa [simScore_build] using hle
  · intro hK j hj
    exact rankOrder_complete _ K (by omega) j (by omega)

/-- Witness for C1 at a concrete input: two candidates, `K = 3`. -/
theorem similarityRanker_topK_witness :
    (rankedRecommendations [[("title", PyVal.str "a")], [("title", PyVal.str "b")]]
        (paperSimilarity [[1], [2]] [1]) 3).length = min 3 2 ∧
    (rankedRecommendations [[("title", PyVal.str "a")], [("title", PyVal.str "b")]]
        (paperSimilarity [[1], [2]] [1]) 3).Pairwise
        (fun a b => simScore b ≤ simScore a) ∧
    (([[("title", PyVal.str "a")], [("title", PyVal.str "b")]] : List Record).length ≤ 3 →
        ∀ j, j < ([[("title", PyVal.str "a")], [("title", PyVal.str "b")]] : List Record).length →
        j ∈ rankOrder (paperSimilarity [[1], [2]] [1]) 3) :=
  similarityRanker_topK [[("title", PyVal.str "a")], [("title", PyVal.str "b")]]
    [[1], [2]] [1] 3 rfl

/-- C2 counterexample: two candidates with equal similarity scores are
emitted in reversed aggregation order, not original order — candidate 1
(title "b") precedes candidate 0 (title "a") although both score 1 and the
two recommendations differ. -/
theorem ties_original_order_counterexample :
    rankedRecommendations [[("title", PyVal.str "a")], [("title", PyVal.str "b")]]
        [1, 1] 2
      = [buildRecommendation [("title", PyVal.str "b")] 1,
         buildRecommendation [("title", PyVal.str "a")] 1] ∧
    simScore (buildRecommendation [("title", PyVal.str "b")] 1)
      = simScore (buildRecommendation [("title", PyVal.str "a")] 1) ∧
    buildRecommendation [("title", PyVal.str "b")] 1
      ≠ buildRecommendation [("title", PyVal.str "a")] 1 := by
  refine ⟨?_, rfl, by decide⟩
  decide

/-- C2 amended: `np.argsort(...)[::-1]` reverses an ascending stable
argsort, so candidates with equal similarity appear in reversed aggregation
order: whenever index `i` is ranked before index `j` and their scores are
equal, `j < i`. -/
theorem ties_reversed_order (sims : List ℚ) (K : ℕ) :
    (rankOrder sims K).Pairwise
      (fun i j => simsAt sims i = simsAt sims j → j < i) := by
  have h1 := rankOrder_pairwise sims K
  have h2 : (rankOrder sims K).Pairwise (fun i j => i ≠ j) := rankOrder_nodup sims K
  refine (h1.and h2).imp ?_
  rintro i j ⟨hji, hne⟩ heq
  rcases hji with h | ⟨_, hle⟩
  · exact absurd (heq ▸ h) (lt_irrefl _)
  · exact lt_of_le_of_ne hle (Ne.symm hne)

/-- C3 counterexample: a candidate that already carries a `Similarity`
field has it overwritten by the computed score (and an `abstract` field is
additionally added), so not every original field survives unmodified. -/
theorem fields_preserved_counterexample :
    pyGet [("title", PyVal.str "t"), ("Similarity", PyVal.str "orig")] "Similarity"
      = some (PyVal.str "orig") ∧
    rankedRecommendations [[("title", PyVal.str "t"), ("Similarity", PyVal.str "orig")]]
        [1] 1
      = [[("title", PyVal.str "t"), ("Similarity", PyVal.rat 1),
          ("abstract", PyVal.str "")]] ∧
    ¬ pyGet (buildRecommendation
          [("title", PyVal.str "t"), ("Similarity", PyVal.str "orig")] 1) "Similarity"
        = some (PyVal.str "orig") := by
  refine ⟨by decide, by decide, by decide⟩

/-- C3 amended: every original field other than `Similarity` is carried
into the recommendation unmodified; the `Similarity` field is bound to the
computed score (overwriting any pre-existing value); and the `abstract`
field ends up bound to its original value, or to `""` when absent. -/
theorem fields_preserved_amended (cand : Record) (sim : ℚ) :
    (∀ k v, k ≠ "Similarity" → pyGet cand k = some v →
        pyGet (buildRecommendation cand sim) k = some v) ∧
    pyGet (buildRecommendation cand sim) "Similarity" = some (PyVal.rat sim) ∧
    pyGet (buildRecommendation cand sim) "abstract"
      = some ((pyGet cand "abstract").getD (PyVal.str "")) := by
  refine ⟨?_, pyGet_build_similarity cand sim, pyGet_build_abstract cand sim⟩
  intro k v hk hv
  by_cases ha : k = "abstract"
  · subst ha
    rw [pyGet_build_abstract, hv]
    rfl
  · rw [pyGet_build_other cand sim k hk ha, hv]

/-- Witness for C3 amended at a concrete candidate. -/
theorem fields_preserved_amended_witness :
    pyGet (buildRecommendation [("title", PyVal.str "t")] 2) "title"
      = some (PyVal.str "t") ∧
    pyGet (buildRecommendation [("title", PyVal.str "t")] 2) "Similarity"
      = some (PyVal.rat 2) :=
  ⟨(fields_preserved_amended [("title", PyVal.str "t")] 2).1 "title" (PyVal.str "t")
      (by decide) (by decide),
   (fields_preserved_amended [("title", PyVal.str "t")] 2).2.1⟩

/-- C7: for the empty candidate set the similarity computation
short-circuits to the empty score vector and the ranker emits no
recommendation. -/
theorem emptyCandidates_empty (persona : List ℚ) (K : ℕ) :
    paperSimilarity [] persona = [] ∧
    rankedRecommendations [] (paperSimilarity [] persona) K = [] := by
  refine ⟨rfl, ?_⟩
  simp [rankedRecommendations, rankOrder, paperSimilarity]

/-- C10: every emitted recommendation carries an `abstract` key, and a
candidate without an `abstract` field yields a recommendation with
`abstract` bound to the empty string. -/
theorem abstract_key_present (cands : List Record) (sims : List ℚ) (K : ℕ) :
    (∀ rec ∈ rankedRecommendations cands sims K,
        (pyGet rec "abstract").isSome = true) ∧
    (∀ cand : Record, pyGet cand "abstract" = Option.none → ∀ sim : ℚ,
        pyGet (buildRecommendation cand sim) "abstract" = some (PyVal.str "")) := by
  constructor
  · intro rec hrec
    rw [rankedRecommendations, List.mem_map] at hrec
    obtain ⟨i, _, rfl⟩ := hrec
    rw [pyGet_build_abstract]
    rfl
  · intro cand h sim
    rw [pyGet_build_abstract, h]
    rfl

/-- Witness for C10 at a concrete pipeline output and candidate. -/
theorem abstract_key_present_witness :
    (pyGet (buildRecommendation [("title", PyVal.str "t")] 1) "abstract").isSome
      = true ∧
    pyGet (buildRecommendation [("title", PyVal.str "t")] 1) "abstract"
      = some (PyVal.str "") :=
  ⟨(abstract_key_present [[("title", PyVal.str "t")]] [1] 1).1 _ (by decide),
   (abstract_key_present [[("title", PyVal.str "t")]] [1] 1).2 _ (by decide) 1⟩

/-! ## Claim theorems: candidate filter -/

theorem keepB_false_of_blank (r : Record)
    (h : pyStrip (titleStr r) = "" ∧ pyStrip (abstractStr r) = "") :
    keepB r = false := by
  simp [keepB, h.1, h.2]

theorem keepB_true_of_not_blank (r : Record)
    (h : ¬(pyStrip (titleStr r) = "" ∧ pyStrip (abstractStr r) = "")) :
    keepB r = true := by
  unfold keepB
  rcases not_and_or.mp h with h' | h' <;> simp [h']

theorem candidateFilter_fst (ds : List Record) (n : ℕ) :
    (candidateFilter ds n).1 = ds.filter keepB := by
  induction ds generalizing n with
  | nil => rfl
  | cons r rest ih =>
      by_cases h : pyStrip (titleStr r) = "" ∧ pyStrip (abstractStr r) = ""
      · simp [candidateFilter, if_pos h, List.filter_cons,
          keepB_false_of_blank r h, ih]
      · simp [candidateFilter, if_neg h, List.filter_cons,
          keepB_true_of_not_blank r h, ih]

theorem candidateFilter_snd (ds : List Record) (n i : ℕ)
    (h : i < (candidateFilter ds n).2.length) :
    (candidateFilter ds n).2.getD i ""
      = paperText (n + i + 1) (titleStr ((ds.filter keepB).getD i []))
          (abstractStr ((ds.filter keepB).getD i [])) := by
  induction ds generalizing n i with
  | nil => simp [candidateFilter] at h
  | cons r rest ih =>
      by_cases hc : pyStrip (titleStr r) = "" ∧ pyStrip (abstractStr r) = ""
      · rw [candidateFilter, if_pos hc] at h ⊢
        rw [List.filter_cons_of_neg (by simp [keepB_false_of_blank r hc])]
        exact ih n i h
      · rw [candidateFilter, if_neg hc] at h ⊢
        rw [List.filter_cons_of_pos (by simp [keepB_true_of_not_blank r hc])]
        cases i with
        | zero => simp
        | succ j =>
            simp only [List.getD_cons_succ]
            simp only [List.length_cons, Nat.succ_lt_succ_iff] at h
            have := ih (n + 1) j h
            rw [this]
            have harith : n + 1 + j + 1 = n + (j + 1) + 1 := by omega
            rw [harith]

/-- C4: the candidate filter keeps exactly the records whose title or
abstract is non-blank after stripping (so a record with a non-empty title
and empty abstract is kept), preserves the relative order of kept records,
and the `i`-th kept record's formatted text carries the 1-based display
index `i + 1`. -/
theorem candidateFilter_spec (ds : List Record) :
    (candidateFilter ds 0).1 = ds.filter keepB ∧
    (∀ r : Record,
        keepB r = true ↔ ¬(pyStrip (titleStr r) = "" ∧ pyStrip (abstractStr r) = "")) ∧
    ∀ i, i < (candidateFilter ds 0).2.length →
      (candidateFilter ds 0).2.getD i ""
        = paperText (i + 1) (titleStr ((ds.filter keepB).getD i []))
            (abstractStr ((ds.filter keepB).getD i [])) := by
  refine ⟨candidateFilter_fst ds 0, ?_, ?_⟩
  · intro r
    constructor
    · intro ht hand
      rw [keepB_false_of_blank r hand] at ht
      cases ht
    · exact keepB_true_of_not_blank r
  · intro i hi
    simpa using candidateFilter_snd ds 0 i hi

/-- Witness for C4: three records — kept, dropped (whitespace title, no
abstract), kept — and the second kept record's text carries index 2. -/
theorem candidateFilter_spec_witness :
    (candidateFilter [[("title", PyVal.str "a")], [("title", PyVal.str " ")],
        [("abstract", PyVal.str "b")]] 0).1
      = ([[("title", PyVal.str "a")], [("title", PyVal.str " ")],
          [("abstract", PyVal.str "b")]] : List Record).filter keepB ∧
    (candidateFilter [[("title", PyVal.str "a")], [("title", PyVal.str " ")],
        [("abstract", PyVal.str "b")]] 0).2.getD 1 ""
      = paperText 2
          (titleStr ((([[("title", PyVal.str "a")], [("title", PyVal.str " ")],
              [("abstract", PyVal.str "b")]] : List Record).filter keepB).getD 1 []))
          (abstractStr ((([[("title", PyVal.str "a")], [("title", PyVal.str " ")],
              [("abstract", PyVal.str "b")]] : List Record).filter keepB).getD 1 [])) :=
  ⟨(candidateFilter_spec _).1, (candidateFilter_spec _).2.2 1 (by decide)⟩

/-- C9: absent and `None` title/abstract fields are both treated as the
empty string (`rawPaper.get(k, "") or ""`), a record with `None` title and
`None` abstract is dropped, and a record with a non-blank string title and
`None` abstract is kept, its abstract reading as `""` in the formatted
text. -/
theorem noneFields_safe (r : Record) :
    ((pyGet r "title" = Option.none ∨ pyGet r "title" = some PyVal.none) →
        titleStr r = "") ∧
    ((pyGet r "abstract" = Option.none ∨ pyGet r "abstract" = some PyVal.none) →
        abstractStr r = "") ∧
    (pyGet r "title" = some PyVal.none → pyGet r "abstract" = some PyVal.none →
        keepB r = false) ∧
    (∀ t, pyGet r "title" = some (PyVal.str t) → pyStrip t ≠ "" →
        pyGet r "abstract" = some PyVal.none →
        keepB r = true ∧ abstractStr r = "") := by
  have htitle : ∀ h : pyGet r "title" = Option.none ∨ pyGet r "title" = some PyVal.none,
      titleStr r = "" := by
    rintro (h | h) <;> simp [titleStr, pyGetD, h, orEmpty]
  have habs : ∀ h : pyGet r "abstract" = Option.none ∨ pyGet r "abstract" = some PyVal.none,
      abstractStr r = "" := by
    rintro (h | h) <;> simp [abstractStr, pyGetD, h, orEmpty]
  refine ⟨htitle, habs, ?_, ?_⟩
  · intro h1 h2
    apply keepB_false_of_blank
    rw [htitle (Or.inr h1), habs (Or.inr h2)]
    exact ⟨rfl, rfl⟩
  · intro t h1 h2 h3
    have ht : titleStr r = t := by simp [titleStr, pyGetD, h1, orEmpty]
    refine ⟨?_, habs (Or.inr h3)⟩
    apply keepB_true_of_not_blank
    rw [ht]
    exact fun hand => h2 hand.1

/-- Witness for C9 at two concrete records. -/
theorem noneFields_safe_witness :
    keepB [("title", PyVal.none), ("abstract", PyVal.none)] = false ∧
    keepB [("title", PyVal.str "T"), ("abstract", PyVal.none)] = true ∧
    abstractStr [("title", PyVal.str "T"), ("abstract", PyVal.none)] = "" :=
  ⟨(noneFields_safe _).2.2.1 (by decide) (by decide),
   ((noneFields_safe _).2.2.2 "T" (by decide) (by decide) (by decide)).1,
   ((noneFields_safe _).2.2.2 "T" (by decide) (by decide) (by decide)).2⟩

/-! ## Claim theorems: profile vectorizer -/

theorem sumVecs_length (embs : List (List ℚ)) (dims : ℕ) (hne : embs ≠ [])
    (h : ∀ v ∈ embs, v.length = dims) : (sumVecs embs).length = dims := by
  induction embs with
  | nil => exact absurd rfl hne
  | cons v rest ih =>
      cases rest with
      | nil => simpa using h v (by simp)
      | cons w rs =>
          have h1 : (sumVecs (w :: rs)).length = dims :=
            ih (by simp) (fun x hx => h x (List.mem_cons_of_mem _ hx))
          have h2 : v.length = dims := h v (by simp)
          simp only [sumVecs]
          simp [h1, h2]

/-- C5: for the empty profile-text batch the vectorizer returns the zero
vector of the embedder's configured dimensionality, and for every batch
whose rows have that dimensionality (the embedder's `(N, D)` shape
contract) the output vector has dimensionality `dims`. -/
theorem personaVecs_dims (dims : ℕ) (n : ℚ) :
    personaVecs [] dims n = List.replicate dims 0 ∧
    ∀ embs : List (List ℚ), (∀ v ∈ embs, v.length = dims) →
      (personaVecs embs dims n).length = dims := by
  constructor
  · rfl
  · intro embs h
    cases embs with
    | nil => simp [personaVecs]
    | cons v rest =>
        rw [personaVecs, if_neg (by simp)]
        simp [meanVec, sumVecs_length (v :: rest) dims (by simp) h]

/-- Witness for C5 at a concrete batch of dimensionality 2. -/
theorem personaVecs_dims_witness :
    personaVecs [] 2 0 = List.replicate 2 0 ∧
    (personaVecs [[1, 2]] 2 0).length = 2 :=
  ⟨(personaVecs_dims 2 0).1, (personaVecs_dims 2 0).2 [[1, 2]] (by decide)⟩

theorem sumSq_map_div (v : List ℚ) (c : ℚ) :
    sumSq (v.map (fun x => x / c)) = sumSq v / c ^ 2 := by
  induction v with
  | nil => simp [sumSq]
  | cons x xs ih =>
      simp only [sumSq, List.map_cons, List.sum_cons] at ih ⊢
      rw [ih, div_pow, div_add_div_same]

/-- C6 counterexample: for the non-empty profile-text set whose two texts
embed to `[1]` and `[-1]`, the mean is the zero vector, its Euclidean norm
is 0, the resulting PersonaVector is the zero vector, and its Euclidean
norm 0 is not within `1e-6` of 1. -/
theorem personaNorm_counterexample :
    ([[1], [-1]] : List (List ℚ)) ≠ [] ∧
    IsEuclidNorm (meanVec [[1], [-1]]) 0 ∧
    personaVecs [[1], [-1]] 1 0 = [0] ∧
    IsEuclidNorm (personaVecs [[1], [-1]] 1 0) 0 ∧
    ¬ |(0 : ℚ) - 1| ≤ 1e-6 := by
  have hm : meanVec [[(1 : ℚ)], [-1]] = [0] := by
    norm_num [meanVec, sumVecs]
  have hp : personaVecs [[(1 : ℚ)], [-1]] 1 0 = [0] := by
    rw [personaVecs, if_neg (by simp), hm]
    norm_num
  refine ⟨by simp, ?_, hp, ?_, by norm_num⟩
  · rw [hm]
    exact ⟨le_refl 0, by norm_num [sumSq]⟩
  · rw [hp]
    exact ⟨le_refl 0, by norm_num [sumSq]⟩

/-- C6 amended: for every non-empty batch whose mean vector has Euclidean
norm at least `1e-3`, the PersonaVector's Euclidean norm is within `1e-6`
of 1.  (The unamended claim fails when the embedded texts cancel: the mean
is near zero and the `1e-9` epsilon leaves the output norm near 0, see the
counterexample.) -/
theorem personaNorm_amended (embs : List (List ℚ)) (dims : ℕ) (n rn : ℚ)
    (hne : embs ≠ []) (hn : IsEuclidNorm (meanVec embs) n)
    (hrn : IsEuclidNorm (personaVecs embs dims n) rn)
    (hbig : 1e-3 ≤ n) : |rn - 1| ≤ 1e-6 := by
  obtain ⟨hn0, hn2⟩ := hn
  obtain ⟨hrn0, hrn2⟩ := hrn
  have hnpos : (0 : ℚ) < n := lt_of_lt_of_le (by norm_num) hbig
  have hcpos : (0 : ℚ) < n + 1e-9 := by
    have : (0 : ℚ) < 1e-9 := by norm_num
    linarith
  have hpv : personaVecs embs dims n = (meanVec embs).map (fun x => x / (n + 1e-9)) := by
    rw [personaVecs, if_neg (by simpa [List.isEmpty_iff] using hne)]
  rw [hpv, sumSq_map_div, ← hn2] at hrn2
  have hq : rn ^ 2 = (n / (n + 1e-9)) ^ 2 := by rw [hrn2, div_pow]
  have hqnn : (0 : ℚ) ≤ n / (n + 1e-9) := le_of_lt (div_pos hnpos hcpos)
  have heq : rn = n / (n + 1e-9) := by
    have habs := (sq_eq_sq_iff_abs_eq_abs (a := rn) (b := n / (n + 1e-9))).mp hq
    rwa [abs_of_nonneg hrn0, abs_of_nonneg hqnn] at habs
  rw [heq]
  have h1 : n / (n + 1e-9) - 1 = -(1e-9 / (n + 1e-9)) := by
    field_simp
  rw [h1, abs_neg, abs_of_nonneg (by positivity)]
  rw [div_le_iff₀ hcpos]
  nlinarith [hbig]

/-- Witness for C6 amended: one profile text embedded to `[1]`; the output
norm is `10^9 / (10^9 + 1)`. -/
theorem personaNorm_amended_witness :
    |(1000000000 / 1000000001 : ℚ) - 1| ≤ 1e-6 :=
  personaNorm_amended [[1]] 1 1 (1000000000 / 1000000001)
    (by decide)
    (by constructor
        · norm_num
        · norm_num [meanVec, sumVecs, sumSq])
    (by constructor
        · norm_num
        · norm_num [personaVecs, meanVec, sumVecs, sumSq])
    (by norm_num)

/-! ## Claim theorem: aggregator -/

/-- C8 (modelled from the spec, the aggregator source file is absent): the
aggregator's output is the concatenation of the fetchers' outputs in
configured fetcher order, preserving each fetcher's internal order with no
cross-source deduplication; in particular a fetcher returning `[x, y]`
followed by one returning `[z]` merges to exactly `[x, y, z]`. -/
theorem aggregator_concat (fetchers : List (String → String → List Record))
    (day nextDay : String) (x y z : Record) :
    fetch_all fetchers day nextDay
        = (fetchers.map (fun f => f day nextDay)).flatten ∧
    fetch_all [fun _ _ => [x, y], fun _ _ => [z]] day nextDay = [x, y, z] := by
  constructor
  · suffices h : ∀ (fs : List (String → String → List Record)) (acc : List Record),
        fs.foldl (fun a f => a ++ f day nextDay) acc
          = acc ++ (fs.map (fun f => f day nextDay)).flatten by
      simpa using h fetchers []
    intro fs
    induction fs with
    | nil => simp
    | cons f rest ih =>
        intro acc
        simp [List.foldl_cons, ih, List.append_assoc]
  · rfl

end PaperLens
